import Mathlib

/-!
# Driver of the coupled cable / gating-variable integration (`src/main.cpp`)

A shallow embedding of `main`: the driver that parses the run parameters,
builds the mesh and the four coupled subsystems (cable potential and the
gating variables n, m, h), runs the pre-flight check, advances the four
subsystems in lockstep inside the time loop and finally writes the three
branches of the mesh to the output files.

The stabilized integrator (`ROCK2`), the mesh and the problem classes live in
headers that are not part of the driver; they enter the model as the fields of
`Ext`, the external collaborators, and every theorem quantifies over them.
Doubles are modelled by exact rationals. Everything the driver does to the
outside world (calls to the collaborators, file output) is recorded, in
program order, in the `log` of the driver state.
-/

namespace Neuron

/-! ## Data model -/

/-- The four coupled subsystems (the objects `cable`, `gate_n`, `gate_m`, `gate_h`). -/
inductive Sub
  | cable
  | gate_n
  | gate_m
  | gate_h
deriving DecidableEq, Repr

/-- The four integrator instances declared by `main`. -/
inductive Stepper
  | rock_cable
  | rock_gate_n
  | rock_gate_m
  | rock_gate_h
deriving DecidableEq, Repr

/-- The three branches of the mesh written by the final output loops. -/
inductive Branch
  | A
  | B
  | C
deriving DecidableEq, Repr

/-- The output files: the monitor file `monitor_ending_branchA_potential` and, for
each branch, one file per subsystem (`branchA_potential`, `branchA_gate_n`, ...). -/
inductive File
  | monitor
  | branch (b : Branch) (q : Sub)
deriving DecidableEq, Repr

/-- The members of an ODE object that the driver reads: `time` and `un`. -/
structure Ode where
  time : ℚ
  un : List ℚ
deriving DecidableEq, Repr

/-- The members of `Mesh` that the driver reads. The counts are C integers; they are
kept as mathematical integers and converted where the code converts them. -/
structure Mesh where
  n_elem : Int
  n_L1 : Int
  n_L2 : Int
  grid : List ℚ
deriving DecidableEq, Repr

/-- Conversion of an integer value to `std::size_t` (64 bit, modular). -/
def toSizeT (x : Int) : Nat := (x % 2 ^ 64).toNat

/-- What the driver does to the outside world, in program order. -/
inductive Event
  | mesh_ctor (dx : ℚ)
  | mesh_print_info
  | new_ode (q : Sub)
  | get_potential (gate : Sub)
  | get_gate_state
  | rock_ctor (r : Stepper)
  | print_info (r : Stepper)
  | check_correctness (r : Stepper) (dt : ℚ) (result : Int)
  | fopen (f : File)
  | fprintf_monitor (time : ℚ) (unIdx : Int)
  | advance (r : Stepper) (q : Sub) (dt : ℚ) (ididOut : Int)
  | fflush
  | fprintf (f : File) (gridIdx : Nat) (q : Sub) (unIdx : Nat)
  | fclose (f : File)
  | print_statistics (r : Stepper)
deriving DecidableEq, Repr

/-- The run parameters held in the locals of `main` after argument parsing. -/
structure Params where
  n_ref : Int
  dt : ℚ
  rtol : ℚ
  atol : ℚ
  dt_adaptivity : Bool
  one_step : Bool
  intrho : Bool
  tend : ℚ
deriving DecidableEq, Repr

/-- The state of the driver from the initialisation of the problem on: the locals `dt`
and `idid`, the four ODE objects, the private state of the four integrators (of an
arbitrary type `σ`) and the log of events so far. -/
structure Driver (σ : Type) where
  dt : ℚ
  idid : Int
  cable : Ode
  gate_n : Ode
  gate_m : Ode
  gate_h : Ode
  rock_cable : σ
  rock_gate_n : σ
  rock_gate_m : σ
  rock_gate_h : σ
  log : List Event

/-- What one `advance(ode, dt, idid)` call may write: the integrator it is called on,
the ODE object it is handed, and the two by-reference arguments `dt` and `idid`. -/
structure AdvOut (σ : Type) where
  rock : σ
  ode : Ode
  dt : ℚ
  idid : Int

/-- The external collaborators of the driver. `advance r q s` is the effect of
`r.advance(q, dt, idid)` in driver state `s`; it may depend on the whole state (the
subsystems read each other through references) and on the history. -/
structure Ext (σ : Type) where
  readInt : String → Int → Int
  readDouble : String → ℚ → ℚ
  exp : ℚ → ℚ
  mkMesh : ℚ → Mesh
  newOde : Sub → Mesh → Bool → ℚ → List ℚ → Ode
  mkRock : Bool → Bool → Bool → ℚ → ℚ → Bool → σ
  check_correctness : Stepper → σ → ℚ → Int
  advance : Stepper → Sub → Driver σ → AdvOut σ

namespace Driver

variable {σ : Type}

/-- The ODE object of a subsystem. -/
def ode (s : Driver σ) : Sub → Ode
  | .cable => s.cable
  | .gate_n => s.gate_n
  | .gate_m => s.gate_m
  | .gate_h => s.gate_h

/-- The private state of an integrator instance. -/
def rock (s : Driver σ) : Stepper → σ
  | .rock_cable => s.rock_cable
  | .rock_gate_n => s.rock_gate_n
  | .rock_gate_m => s.rock_gate_m
  | .rock_gate_h => s.rock_gate_h

/-- Overwrite the ODE object of a subsystem. -/
def setOde (s : Driver σ) (q : Sub) (o : Ode) : Driver σ :=
  match q with
  | .cable => { s with cable := o }
  | .gate_n => { s with gate_n := o }
  | .gate_m => { s with gate_m := o }
  | .gate_h => { s with gate_h := o }

/-- Overwrite the private state of an integrator instance. -/
def setRock (s : Driver σ) (r : Stepper) (x : σ) : Driver σ :=
  match r with
  | .rock_cable => { s with rock_cable := x }
  | .rock_gate_n => { s with rock_gate_n := x }
  | .rock_gate_m => { s with rock_gate_m := x }
  | .rock_gate_h => { s with rock_gate_h := x }

/-- Append one event to the log. -/
def emit (s : Driver σ) (e : Event) : Driver σ :=
  { s with log := s.log ++ [e] }

end Driver

/-! ## Argument parsing (lines 55-75) -/

/-- The default accuracy parameters and integration options. -/
def defaults : Params :=
  { n_ref := 2, dt := 5 / 10000, rtol := 1 / 100, atol := 1 / 100,
    dt_adaptivity := false, one_step := true, intrho := true, tend := 10 }

/-- The read `argv[i]`: defined only for `i < argc`, where `argv` holds the `argc`
arguments (`argv[argc]` is the null pointer and anything beyond is out of range). -/
def argvRead (argc : Nat) (argv : List String) (i : Nat) : Option String :=
  if i < argc then argv.get? i else none

/-- The expression `*argv[i]=='1'`: the first character of the argument is `1`. -/
def firstIsOne (a : String) : Bool := a.data.head? == some '1'

/-- The block `if(argc>1)...` of `main`. `none` stands for a read of `argv` outside
the supplied arguments (undefined behaviour). -/
def parseArgs {σ : Type} (ext : Ext σ) (argc : Nat) (argv : List String) : Option Params :=
  if argc > 1 then do
    let a1 ← argvRead argc argv 1
    let a2 ← argvRead argc argv 2
    let n_ref := ext.readInt a1 defaults.n_ref
    let dt := ext.readDouble a2 defaults.dt
    let a3 ← argvRead argc argv 3
    let a4 ← argvRead argc argv 4
    pure { defaults with n_ref := n_ref, dt := dt,
                         dt_adaptivity := firstIsOne a3, one_step := firstIsOne a4 }
  else
    pure defaults

/-! ## Initialisation (lines 77-112) -/

/-- The vector `pot_initial`: `mesh.n_elem` copies of the resting potential. -/
def pot_initial (mesh : Mesh) : List ℚ := List.replicate (toSizeT mesh.n_elem) (-64.974)

/-- The rate `alpha_n` at the resting potential (`exp` is the library exponential). -/
def alpha_n {σ : Type} (ext : Ext σ) : ℚ :=
  0.01 * (-(-64.974 + 55.0)) / (ext.exp ((-(-64.974 + 55)) / 10) - 1)

/-- The rate `beta_n` at the initial potential. -/
def beta_n {σ : Type} (ext : Ext σ) : ℚ :=
  0.125 * ext.exp ((-(-64.974 + 65)) / 80)

/-- The rate `alpha_m` at the initial potential. -/
def alpha_m {σ : Type} (ext : Ext σ) : ℚ :=
  0.1 * (-(-64.974 + 40)) / (ext.exp ((-(-64.974 + 40)) / 10) - 1)

/-- The rate `beta_m` at the initial potential. -/
def beta_m {σ : Type} (ext : Ext σ) : ℚ :=
  4 * ext.exp ((-(-64.974 + 65)) / 18)

/-- The rate `alpha_h` at the initial potential. -/
def alpha_h {σ : Type} (ext : Ext σ) : ℚ :=
  0.07 * ext.exp ((-(-64.974 + 65)) / 20)

/-- The rate `beta_h` at the initial potential. -/
def beta_h {σ : Type} (ext : Ext σ) : ℚ :=
  1 / (ext.exp ((-(-64.974 + 35)) / 10) + 1)

/-- The vector `n_initial`: `mesh.n_elem` copies of `alpha_n/(alpha_n+beta_n)`. -/
def n_initial {σ : Type} (ext : Ext σ) (mesh : Mesh) : List ℚ :=
  List.replicate (toSizeT mesh.n_elem) (alpha_n ext / (alpha_n ext + beta_n ext))

/-- The vector `m_initial`: `mesh.n_elem` copies of `alpha_m/(alpha_m+beta_m)`. -/
def m_initial {σ : Type} (ext : Ext σ) (mesh : Mesh) : List ℚ :=
  List.replicate (toSizeT mesh.n_elem) (alpha_m ext / (alpha_m ext + beta_m ext))

/-- The vector `h_initial`: `mesh.n_elem` copies of `alpha_h/(alpha_h+beta_h)`. -/
def h_initial {σ : Type} (ext : Ext σ) (mesh : Mesh) : List ℚ :=
  List.replicate (toSizeT mesh.n_elem) (alpha_h ext / (alpha_h ext + beta_h ext))

/-- The grid space `dx` handed to the `Mesh` constructor. -/
def dx : ℚ := 0.01

/-- Lines 77-112: mesh, initial data, the four problems, the exchange of the state
references (`get_potential`, `get_gate_state`) and the four integrators. The local
`idid` is declared only at line 118; its field holds the value it is declared with. -/
def setup {σ : Type} (ext : Ext σ) (p : Params) : Driver σ × Mesh :=
  let mesh := ext.mkMesh dx
  let verbose := true
  let rk := ext.mkRock p.one_step verbose p.dt_adaptivity p.atol p.rtol p.intrho
  ({ dt := p.dt
     idid := 2
     cable := ext.newOde .cable mesh p.intrho p.tend (pot_initial mesh)
     gate_n := ext.newOde .gate_n mesh p.intrho p.tend (n_initial ext mesh)
     gate_m := ext.newOde .gate_m mesh p.intrho p.tend (m_initial ext mesh)
     gate_h := ext.newOde .gate_h mesh p.intrho p.tend (h_initial ext mesh)
     rock_cable := rk
     rock_gate_n := rk
     rock_gate_m := rk
     rock_gate_h := rk
     log := [.mesh_ctor dx, .mesh_print_info,
             .new_ode .cable, .new_ode .gate_n, .new_ode .gate_m, .new_ode .gate_h,
             .get_potential .gate_n, .get_potential .gate_m, .get_potential .gate_h,
             .get_gate_state,
             .rock_ctor .rock_cable, .print_info .rock_cable,
             .rock_ctor .rock_gate_n, .rock_ctor .rock_gate_m, .rock_ctor .rock_gate_h] },
   mesh)

/-! ## Pre-flight check (lines 115-117) -/

/-- One call `r.check_correctness(dt)`: the result, and the call recorded in the log. -/
def check {σ : Type} (ext : Ext σ) (r : Stepper) (s : Driver σ) : Driver σ × Int :=
  let res := ext.check_correctness r (s.rock r) s.dt
  (s.emit (.check_correctness r s.dt res), res)

/-- The condition of the `if` at lines 115-116, evaluated left to right with the
short circuit of `&&`; the flag is `true` when `main` takes the `return 0`. -/
def preflight {σ : Type} (ext : Ext σ) (s : Driver σ) : Driver σ × Bool :=
  let (s1, r1) := check ext .rock_cable s
  if r1 = 0 then
    let (s2, r2) := check ext .rock_gate_n s1
    if r2 = 0 then
      let (s3, r3) := check ext .rock_gate_m s2
      if r3 = 0 then
        let (s4, r4) := check ext .rock_gate_h s3
        (s4, decide (r4 = 0))
      else (s3, false)
    else (s2, false)
  else (s1, false)

/-! ## Time stepping (lines 118-138) -/

/-- The call `r.advance(q, dt, idid)`: the integrator `r`, the ODE object `q` and the
locals `dt`, `idid` take the values the call leaves; the log records the integrator,
the subsystem, the step size handed in and the status left. -/
def callAdvance {σ : Type} (ext : Ext σ) (r : Stepper) (q : Sub) (s : Driver σ) : Driver σ :=
  let out := ext.advance r q s
  ((({ s with dt := out.dt, idid := out.idid }).setRock r out.rock).setOde q out.ode).emit
    (.advance r q s.dt out.idid)

/-- The monitor line: `cable->time` and `cable->un[mesh.n_L1+mesh.n_L2-5]`. -/
def monitorLine {σ : Type} (mesh : Mesh) (s : Driver σ) : Driver σ :=
  s.emit (.fprintf_monitor s.cable.time (mesh.n_L1 + mesh.n_L2 - 5))

/-- Lines 118-128: declaration of `idid`, opening of the monitor file, the three gate
calls at half the step size, and the reset of `dt` and `idid`. -/
def preLoop {σ : Type} (ext : Ext σ) (mesh : Mesh) (s : Driver σ) : Driver σ :=
  let s := { s with idid := 2 }
  let s := s.emit (.fopen .monitor)
  let s := monitorLine mesh s
  let s := { s with dt := s.dt / 2 }
  let s := callAdvance ext .rock_gate_n .gate_n s
  let s := callAdvance ext .rock_gate_m .gate_m s
  let s := callAdvance ext .rock_gate_h .gate_h s
  let s := { s with dt := s.dt * 2 }
  let s := { s with idid := 2 }
  s.emit .fflush

/-- The condition `(idid==2)&&(cable->time<=tend)` of the time loop. -/
def loopCond {σ : Type} (tend : ℚ) (s : Driver σ) : Bool :=
  decide (s.idid = 2) && decide (s.cable.time ≤ tend)

/-- The body of the time loop (lines 132-137). -/
def loopBody {σ : Type} (ext : Ext σ) (mesh : Mesh) (s : Driver σ) : Driver σ :=
  let s := callAdvance ext .rock_cable .cable s
  let s := monitorLine mesh s
  let s := callAdvance ext .rock_gate_n .gate_n s
  let s := callAdvance ext .rock_gate_m .gate_m s
  callAdvance ext .rock_gate_h .gate_h s

/-- The time loop, cut off after at most `fuel` iterations: the state when the
condition first fails, or after `fuel` iterations if it has not failed by then. -/
def timeLoop {σ : Type} (ext : Ext σ) (tend : ℚ) (mesh : Mesh) : Nat → Driver σ → Driver σ
  | 0, s => s
  | fuel + 1, s =>
    if loopCond tend s then timeLoop ext tend mesh fuel (loopBody ext mesh s) else s

/-! ## Final output (lines 139-198) -/

/-- A loop `for (std::size_t i = ...; i < hi; i++)` whose body only writes output,
from index `i` on, cut off after `fuel` iterations. Since `i < hi` inside the body, the
increment never wraps. -/
def forLoopFrom (hi : Nat) (body : Nat → List Event) : Nat → Nat → List Event
  | 0, _ => []
  | fuel + 1, i => if i < hi then body i ++ forLoopFrom hi body fuel (i + 1) else []

/-- A loop `for (std::size_t i = lo; i < hi; i++)` whose body only writes output. The
loop makes at most `hi - lo` iterations, so that cut-off never takes effect. -/
def forLoop (lo hi : Nat) (body : Nat → List Event) : List Event :=
  forLoopFrom hi body (hi - lo) lo

/-- The four `fprintf` of one iteration of an output loop, for branch `b` and index `i`. -/
def row (b : Branch) (i : Nat) : List Event :=
  [.fprintf (.branch b .cable) i .cable i,
   .fprintf (.branch b .gate_n) i .gate_n i,
   .fprintf (.branch b .gate_m) i .gate_m i,
   .fprintf (.branch b .gate_h) i .gate_h i]

/-- The four `fclose` after an output loop. -/
def closeBranch (b : Branch) : List Event :=
  [.fclose (.branch b .cable), .fclose (.branch b .gate_n),
   .fclose (.branch b .gate_m), .fclose (.branch b .gate_h)]

/-- The three output loops (lines 169-198) with the `fclose` calls between them. -/
def outputLoops (mesh : Mesh) : List Event :=
  forLoop 0 (toSizeT (mesh.n_L1 - 1)) (row .A)
    ++ closeBranch .A
    ++ forLoop (toSizeT (mesh.n_L1 - 1)) (toSizeT (mesh.n_L1 + mesh.n_L2 - 2)) (row .B)
    ++ closeBranch .B
    ++ forLoop (toSizeT (mesh.n_L1 + mesh.n_L2 - 2)) (toSizeT mesh.n_elem) (row .C)
    ++ closeBranch .C

/-- Lines 139-198: closing the monitor file, the statistics, the twelve `fopen` and
the three output loops. -/
def outputEvents (mesh : Mesh) : List Event :=
  [.fclose .monitor, .print_statistics .rock_cable,
   .fopen (.branch .A .cable), .fopen (.branch .B .cable), .fopen (.branch .C .cable),
   .fopen (.branch .A .gate_n), .fopen (.branch .B .gate_n), .fopen (.branch .C .gate_n),
   .fopen (.branch .A .gate_m), .fopen (.branch .B .gate_m), .fopen (.branch .C .gate_m),
   .fopen (.branch .A .gate_h), .fopen (.branch .B .gate_h), .fopen (.branch .C .gate_h)]
    ++ outputLoops mesh

/-- The driver state after the final output. -/
def finish {σ : Type} (mesh : Mesh) (s : Driver σ) : Driver σ :=
  { s with log := s.log ++ outputEvents mesh }

/-! ## The driver -/

/-- How a run of `main` stands after at most `fuel` iterations of the time loop. -/
inductive Outcome (σ : Type)
  | undefined
  | running (s : Driver σ)
  | returned (s : Driver σ)

/-- The log of a run: empty when argument parsing already left the defined behaviour. -/
def Outcome.log {σ : Type} : Outcome σ → List Event
  | .undefined => []
  | .running s => s.log
  | .returned s => s.log

/-- The driver state from the pre-flight check on (lines 115-198). -/
def run {σ : Type} (ext : Ext σ) (fuel : Nat) (tend : ℚ) (mesh : Mesh) (s0 : Driver σ) :
    Outcome σ :=
  let (s1, abort) := preflight ext s0
  if abort then .returned s1
  else
    let s2 := timeLoop ext tend mesh fuel (preLoop ext mesh s1)
    if loopCond tend s2 then .running s2 else .returned (finish mesh s2)

/-- The function `main`. `undefined`: a read of `argv` outside the supplied arguments;
`running s`: the time loop has not ended within `fuel` iterations, `s` is the state
reached; `returned s`: `main` returned, `s` is the final state. -/
def main {σ : Type} (ext : Ext σ) (fuel : Nat) (argc : Nat) (argv : List String) : Outcome σ :=
  match parseArgs ext argc argv with
  | none => .undefined
  | some p =>
    let (s0, mesh) := setup ext p
    run ext fuel p.tend mesh s0

/-! ## Views of the log -/

/-- The integrator and subsystem of an `advance` call. -/
def Event.advancePair : Event → Option (Stepper × Sub)
  | .advance r q _ _ => some (r, q)
  | _ => none

/-- The step size handed to an `advance` call. -/
def Event.advanceDt : Event → Option ℚ
  | .advance _ _ dt _ => some dt
  | _ => none

/-- Whether the event hands a subsystem its view of the others
(`get_potential`, `get_gate_state`). -/
def Event.isRefresh : Event → Bool
  | .get_potential _ => true
  | .get_gate_state => true
  | _ => false

/-- Whether the event belongs to the initialisation (lines 77-112). -/
def Event.isSetup : Event → Bool
  | .mesh_ctor _ => true
  | .mesh_print_info => true
  | .new_ode _ => true
  | .get_potential _ => true
  | .get_gate_state => true
  | .rock_ctor _ => true
  | .print_info _ => true
  | _ => false

/-- For an `fprintf` of subsystem `q` in an output loop: the index read from `mesh.grid`
and the index read from the vector `un` of `q`. -/
def Event.indexPair (q : Sub) : Event → Option (Nat × Nat)
  | .fprintf _ i q' j => if q' = q then some (i, j) else none
  | _ => none

/-- Whether the event is an `fprintf` to file `f` in an output loop. -/
def Event.isFprintfTo (f : File) : Event → Bool
  | .fprintf f' _ _ _ => decide (f' = f)
  | _ => false

/-- The branch an index belongs to: A below `n_L1 - 1`, B from there up to
`n_L1 + n_L2 - 2`, C from there on. -/
def branchOf (mesh : Mesh) (i : Nat) : Branch :=
  if (i : Int) < mesh.n_L1 - 1 then .A
  else if (i : Int) < mesh.n_L1 + mesh.n_L2 - 2 then .B
  else .C

/-- The first index of a branch and the index after its last, as natural numbers. -/
def branchRange (mesh : Mesh) : Branch → Nat × Nat
  | .A => (0, (mesh.n_L1 - 1).toNat)
  | .B => ((mesh.n_L1 - 1).toNat, (mesh.n_L1 + mesh.n_L2 - 2).toNat)
  | .C => ((mesh.n_L1 + mesh.n_L2 - 2).toNat, mesh.n_elem.toNat)

/-- The `advance` calls of a log, as (integrator, subsystem), in program order. -/
def advancePairs (l : List Event) : List (Stepper × Sub) := l.filterMap Event.advancePair

/-- The step sizes handed to the `advance` calls of a log, in program order. -/
def advanceDts (l : List Event) : List ℚ := l.filterMap Event.advanceDt

/-- The `get_potential` and `get_gate_state` calls of a log. -/
def refreshCalls (l : List Event) : List Event := l.filter Event.isRefresh

/-- The log of `s'` continues the log of `s` with events that are not initialisation. -/
def Continues {σ : Type} (s s' : Driver σ) : Prop :=
  ∃ l, s'.log = s.log ++ l ∧ ∀ e ∈ l, Event.isSetup e = false

/-- The order of the four calls of one iteration of the time loop. -/
def lockstep : List (Stepper × Sub) :=
  [(.rock_cable, .cable), (.rock_gate_n, .gate_n), (.rock_gate_m, .gate_m),
   (.rock_gate_h, .gate_h)]

/-- Collaborators with a six-point mesh (`n_L1 = n_L2 = 3`), problems starting at time 0,
pre-flight results `chk` and the `advance` behaviour `adv`. -/
def testExt (chk : Stepper → Int) (adv : Stepper → Sub → Driver Unit → AdvOut Unit) :
    Ext Unit :=
  { readInt := fun _ d => d
    readDouble := fun _ d => d
    exp := fun _ => 2
    mkMesh := fun _ => { n_elem := 6, n_L1 := 3, n_L2 := 3, grid := [0, 1, 2, 3, 4, 5] }
    newOde := fun _ _ _ _ u => { time := 0, un := u }
    mkRock := fun _ _ _ _ _ _ => ()
    check_correctness := fun r _ _ => chk r
    advance := adv }

/-- An `advance` that takes exactly one step of the size it is given. -/
def steppingAdvance (_ : Stepper) (q : Sub) (s : Driver Unit) : AdvOut Unit :=
  { rock := (), ode := { s.ode q with time := (s.ode q).time + s.dt }, dt := s.dt,
    idid := s.idid }

/-- All pre-flight checks pass, every `advance` takes one step. -/
def stepExt : Ext Unit := testExt (fun _ => 1) steppingAdvance

section Steps

variable {σ : Type}

@[simp] theorem emit_log (s : Driver σ) (e : Event) : (s.emit e).log = s.log ++ [e] := rfl

@[simp] theorem emit_dt (s : Driver σ) (e : Event) : (s.emit e).dt = s.dt := rfl

@[simp] theorem emit_idid (s : Driver σ) (e : Event) : (s.emit e).idid = s.idid := rfl

@[simp] theorem emit_ode (s : Driver σ) (e : Event) (q : Sub) : (s.emit e).ode q = s.ode q := by
  cases q <;> rfl

@[simp] theorem emit_rock (s : Driver σ) (e : Event) (r : Stepper) :
    (s.emit e).rock r = s.rock r := by
  cases r <;> rfl

@[simp] theorem callAdvance_log (ext : Ext σ) (r : Stepper) (q : Sub) (s : Driver σ) :
    (callAdvance ext r q s).log = s.log ++ [.advance r q s.dt (ext.advance r q s).idid] := by
  cases r <;> cases q <;> rfl

@[simp] theorem callAdvance_dt (ext : Ext σ) (r : Stepper) (q : Sub) (s : Driver σ) :
    (callAdvance ext r q s).dt = (ext.advance r q s).dt := by
  cases r <;> cases q <;> rfl

@[simp] theorem callAdvance_idid (ext : Ext σ) (r : Stepper) (q : Sub) (s : Driver σ) :
    (callAdvance ext r q s).idid = (ext.advance r q s).idid := by
  cases r <;> cases q <;> rfl

theorem callAdvance_ode (ext : Ext σ) (r : Stepper) (q q' : Sub) (s : Driver σ) :
    (callAdvance ext r q s).ode q' = if q' = q then (ext.advance r q s).ode else s.ode q' := by
  cases r <;> cases q <;> cases q' <;> rfl

@[simp] theorem monitorLine_log (mesh : Mesh) (s : Driver σ) :
    (monitorLine mesh s).log
      = s.log ++ [.fprintf_monitor s.cable.time (mesh.n_L1 + mesh.n_L2 - 5)] := rfl

@[simp] theorem monitorLine_dt (mesh : Mesh) (s : Driver σ) : (monitorLine mesh s).dt = s.dt := rfl

@[simp] theorem monitorLine_idid (mesh : Mesh) (s : Driver σ) :
    (monitorLine mesh s).idid = s.idid := rfl

@[simp] theorem monitorLine_ode (mesh : Mesh) (s : Driver σ) (q : Sub) :
    (monitorLine mesh s).ode q = s.ode q := by
  cases q <;> rfl

/-- The log written by one iteration of the time loop. -/
theorem loopBody_log (ext : Ext σ) (mesh : Mesh) (s : Driver σ) :
    ∃ d1 d2 d3 d4 i1 i2 i3 i4 t,
      (loopBody ext mesh s).log = s.log ++
        [.advance .rock_cable .cable d1 i1, .fprintf_monitor t (mesh.n_L1 + mesh.n_L2 - 5),
         .advance .rock_gate_n .gate_n d2 i2, .advance .rock_gate_m .gate_m d3 i3,
         .advance .rock_gate_h .gate_h d4 i4] :=
  ⟨_, _, _, _, _, _, _, _, _, by
    simp only [loopBody, callAdvance_log, monitorLine_log, List.append_assoc, List.cons_append,
      List.nil_append]; rfl⟩

/-- The cut-off loop has run some number of complete iterations. -/
theorem timeLoop_eq_iterate (ext : Ext σ) (tend : ℚ) (mesh : Mesh) (fuel : Nat) (s : Driver σ) :
    ∃ k, k ≤ fuel ∧ timeLoop ext tend mesh fuel s = (loopBody ext mesh)^[k] s := by
  induction fuel generalizing s with
  | zero => exact ⟨0, le_rfl, rfl⟩
  | succ n ih =>
    unfold timeLoop
    split
    · obtain ⟨k, hk, e⟩ := ih (loopBody ext mesh s)
      exact ⟨k + 1, by omega, by rw [e, Function.iterate_succ_apply]⟩
    · exact ⟨0, by omega, rfl⟩

/-- The `advance` calls of one iteration of the time loop. -/
theorem loopBody_advancePairs (ext : Ext σ) (mesh : Mesh) (s : Driver σ) :
    advancePairs (loopBody ext mesh s).log = advancePairs s.log ++ lockstep := by
  obtain ⟨d1, d2, d3, d4, i1, i2, i3, i4, t, e⟩ := loopBody_log ext mesh s
  rw [e]
  simp [advancePairs, lockstep, Event.advancePair]

/-- The `advance` calls of `k` iterations of the time loop. -/
theorem iterate_advancePairs (ext : Ext σ) (mesh : Mesh) (k : Nat) (s : Driver σ) :
    advancePairs ((loopBody ext mesh)^[k] s).log
      = advancePairs s.log ++ (List.replicate k lockstep).flatten := by
  induction k generalizing s with
  | zero => simp
  | succ k ih =>
    rw [Function.iterate_succ_apply, ih, loopBody_advancePairs, List.replicate_succ,
      List.flatten_cons, List.append_assoc]

@[simp] theorem finish_idid (mesh : Mesh) (s : Driver σ) : (finish mesh s).idid = s.idid := rfl

@[simp] theorem finish_cable (mesh : Mesh) (s : Driver σ) : (finish mesh s).cable = s.cable := rfl

@[simp] theorem finish_log (mesh : Mesh) (s : Driver σ) :
    (finish mesh s).log = s.log ++ outputEvents mesh := rfl

/-- The run from the pre-flight check on, when the check does not abort it. -/
theorem run_of_not_abort (ext : Ext σ) (fuel : Nat) (tend : ℚ) (mesh : Mesh) (s0 : Driver σ)
    (h : (preflight ext s0).2 = false) :
    run ext fuel tend mesh s0 =
      if loopCond tend (timeLoop ext tend mesh fuel (preLoop ext mesh (preflight ext s0).1))
      then .running (timeLoop ext tend mesh fuel (preLoop ext mesh (preflight ext s0).1))
      else .returned (finish mesh
        (timeLoop ext tend mesh fuel (preLoop ext mesh (preflight ext s0).1))) := by
  simp only [run, h]
  rfl

/-- The run from the pre-flight check on, when the check aborts it. -/
theorem run_of_abort (ext : Ext σ) (fuel : Nat) (tend : ℚ) (mesh : Mesh) (s0 : Driver σ)
    (h : (preflight ext s0).2 = true) :
    run ext fuel tend mesh s0 = .returned (preflight ext s0).1 := by
  simp only [run, h]
  rfl

/-- With enough fuel an output loop visits the indices from `i` up to `hi`, in
increasing order. -/
theorem forLoopFrom_eq_flatMap (hi : Nat) (body : Nat → List Event) (fuel i : Nat)
    (h : hi - i ≤ fuel) :
    forLoopFrom hi body fuel i = (List.range' i (hi - i)).flatMap body := by
  induction fuel generalizing i with
  | zero =>
    have h0 : hi - i = 0 := by omega
    simp [forLoopFrom, h0]
  | succ n ih =>
    rw [forLoopFrom]
    split
    · rename_i hlt
      have e : hi - i = (hi - (i + 1)) + 1 := by omega
      rw [ih (i + 1) (by omega), e, List.range'_succ]
      simp
    · rename_i hge
      have h0 : hi - i = 0 := by omega
      simp [h0]

/-- An output loop visits the indices from `lo` up to `hi`, in increasing order. -/
theorem forLoop_eq_flatMap (lo hi : Nat) (body : Nat → List Event) :
    forLoop lo hi body = (List.range' lo (hi - lo)).flatMap body :=
  forLoopFrom_eq_flatMap hi body (hi - lo) lo le_rfl

/-- The final output consists of `fclose`, `print_statistics`, `fopen` and `fprintf`. -/
theorem outputEvents_mem (mesh : Mesh) (e : Event) (h : e ∈ outputEvents mesh) :
    (∃ f, e = .fclose f) ∨ (∃ r, e = .print_statistics r) ∨ (∃ f, e = .fopen f)
      ∨ (∃ f i q j, e = .fprintf f i q j) := by
  simp only [outputEvents, outputLoops, forLoop_eq_flatMap, closeBranch, row, List.mem_append,
    List.mem_flatMap, List.mem_cons, List.mem_singleton, List.not_mem_nil, or_false] at h
  rcases h with h | h
  · rcases h with h | h | h | h | h | h | h | h | h | h | h | h | h | h <;> subst h <;> simp
  · rcases h with ((((h | h) | h) | h) | h) | h
    · obtain ⟨i, -, h⟩ := h
      rcases h with h | h | h | h <;> subst h <;> simp
    · rcases h with h | h | h | h <;> subst h <;> simp
    · obtain ⟨i, -, h⟩ := h
      rcases h with h | h | h | h <;> subst h <;> simp
    · rcases h with h | h | h | h <;> subst h <;> simp
    · obtain ⟨i, -, h⟩ := h
      rcases h with h | h | h | h <;> subst h <;> simp
    · rcases h with h | h | h | h <;> subst h <;> simp

/-- The final output hands no step size to anything. -/
theorem outputEvents_advanceDts (mesh : Mesh) : advanceDts (outputEvents mesh) = [] := by
  rw [advanceDts, List.filterMap_eq_nil_iff]
  intro e he
  rcases outputEvents_mem mesh e he with ⟨f, rfl⟩ | ⟨r, rfl⟩ | ⟨f, rfl⟩ | ⟨f, i, q, j, rfl⟩ <;>
    rfl

/-- The driver past argument parsing. -/
theorem main_of_parseArgs (ext : Ext σ) (fuel argc : Nat) (argv : List String) (p : Params)
    (h : parseArgs ext argc argv = some p) :
    main ext fuel argc argv = run ext fuel p.tend (setup ext p).2 (setup ext p).1 := by
  simp only [main, h]

theorem Continues.refl (s : Driver σ) : Continues s s := ⟨[], by simp, by simp⟩

theorem Continues.trans {s s' s'' : Driver σ} (h : Continues s s') (h' : Continues s' s'') :
    Continues s s'' := by
  obtain ⟨l, e, hl⟩ := h
  obtain ⟨l', e', hl'⟩ := h'
  refine ⟨l ++ l', by rw [e', e, List.append_assoc], ?_⟩
  intro x hx
  rcases List.mem_append.1 hx with hx | hx
  · exact hl x hx
  · exact hl' x hx

theorem continues_emit (s : Driver σ) (e : Event) (h : Event.isSetup e = false) :
    Continues s (s.emit e) :=
  ⟨[e], rfl, by simpa using h⟩

theorem continues_callAdvance (ext : Ext σ) (r : Stepper) (q : Sub) (s : Driver σ) :
    Continues s (callAdvance ext r q s) :=
  ⟨_, callAdvance_log ext r q s, by simp [Event.isSetup]⟩

theorem continues_check (ext : Ext σ) (r : Stepper) (s : Driver σ) :
    Continues s (check ext r s).1 :=
  continues_emit s _ rfl

theorem continues_preflight (ext : Ext σ) (s : Driver σ) : Continues s (preflight ext s).1 := by
  have c1 := continues_check ext .rock_cable s
  have c2 := c1.trans (continues_check ext .rock_gate_n (check ext .rock_cable s).1)
  have c3 := c2.trans
    (continues_check ext .rock_gate_m (check ext .rock_gate_n (check ext .rock_cable s).1).1)
  have c4 := c3.trans (continues_check ext .rock_gate_h
    (check ext .rock_gate_m (check ext .rock_gate_n (check ext .rock_cable s).1).1).1)
  unfold preflight
  dsimp only
  split
  · split
    · split
      · exact c4
      · exact c3
    · exact c2
  · exact c1

theorem continues_preLoop (ext : Ext σ) (mesh : Mesh) (s : Driver σ) :
    Continues s (preLoop ext mesh s) :=
  ⟨_, by simp only [preLoop, emit_log, callAdvance_log, monitorLine_log, List.append_assoc]; rfl,
    by simp [Event.isSetup]⟩

theorem continues_loopBody (ext : Ext σ) (mesh : Mesh) (s : Driver σ) :
    Continues s (loopBody ext mesh s) := by
  obtain ⟨d1, d2, d3, d4, i1, i2, i3, i4, t, e⟩ := loopBody_log ext mesh s
  exact ⟨_, e, by simp [Event.isSetup]⟩

theorem continues_timeLoop (ext : Ext σ) (tend : ℚ) (mesh : Mesh) (fuel : Nat) (s : Driver σ) :
    Continues s (timeLoop ext tend mesh fuel s) := by
  induction fuel generalizing s with
  | zero => exact Continues.refl s
  | succ n ih =>
    unfold timeLoop
    split
    · exact (continues_loopBody ext mesh s).trans (ih _)
    · exact Continues.refl s

theorem continues_finish (mesh : Mesh) (s : Driver σ) : Continues s (finish mesh s) := by
  refine ⟨outputEvents mesh, rfl, ?_⟩
  intro e he
  rcases outputEvents_mem mesh e he with ⟨f, rfl⟩ | ⟨r, rfl⟩ | ⟨f, rfl⟩ | ⟨f, i, q, j, rfl⟩ <;> rfl

/-- From the pre-flight check on, `main` only appends events that are not
initialisation to the log. -/
theorem run_log (ext : Ext σ) (fuel : Nat) (tend : ℚ) (mesh : Mesh) (s0 : Driver σ) :
    ∃ l, (run ext fuel tend mesh s0).log = s0.log ++ l ∧ ∀ e ∈ l, Event.isSetup e = false := by
  have c1 := continues_preflight ext s0
  have c2 := (c1.trans (continues_preLoop ext mesh _)).trans
    (continues_timeLoop ext tend mesh fuel (preLoop ext mesh (preflight ext s0).1))
  have c3 := c2.trans (continues_finish mesh _)
  cases h : (preflight ext s0).2 with
  | true =>
    rw [run_of_abort ext fuel tend mesh s0 h]
    exact c1
  | false =>
    rw [run_of_not_abort ext fuel tend mesh s0 h]
    split
    · exact c2
    · exact c3

/-- Events that are not initialisation exchange no state references. -/
theorem refreshCalls_eq_nil (l : List Event) (h : ∀ e ∈ l, Event.isSetup e = false) :
    refreshCalls l = [] := by
  rw [refreshCalls, List.filter_eq_nil_iff]
  intro e he
  have := h e he
  cases e <;> simp_all [Event.isSetup, Event.isRefresh]

/-- The pre-flight check returns from `main` exactly when all four checks give 0. -/
theorem preflight_abort_iff (ext : Ext σ) (s : Driver σ) :
    (preflight ext s).2 = true ↔ ∀ r, ext.check_correctness r (s.rock r) s.dt = 0 := by
  have e1 : (check ext .rock_cable s).2 = ext.check_correctness .rock_cable s.rock_cable s.dt :=
    rfl
  have e2 : (check ext .rock_gate_n (check ext .rock_cable s).1).2
      = ext.check_correctness .rock_gate_n s.rock_gate_n s.dt := rfl
  have e3 : (check ext .rock_gate_m (check ext .rock_gate_n (check ext .rock_cable s).1).1).2
      = ext.check_correctness .rock_gate_m s.rock_gate_m s.dt := rfl
  have e4 : (check ext .rock_gate_h
      (check ext .rock_gate_m (check ext .rock_gate_n (check ext .rock_cable s).1).1).1).2
      = ext.check_correctness .rock_gate_h s.rock_gate_h s.dt := rfl
  unfold preflight
  dsimp only
  constructor
  · intro h r
    split at h
    · split at h
      · split at h
        · rename_i h1 h2 h3
          rw [e1] at h1
          rw [e2] at h2
          rw [e3] at h3
          rw [e4] at h
          cases r
          · exact h1
          · exact h2
          · exact h3
          · simpa using h
        · cases h
      · cases h
    · cases h
  · intro h
    have h1 := h .rock_cable
    have h2 := h .rock_gate_n
    have h3 := h .rock_gate_m
    have h4 := h .rock_gate_h
    simp only [Driver.rock] at h1 h2 h3 h4
    rw [e1, e2, e3, e4, if_pos h1, if_pos h2, if_pos h3]
    simpa using h4

/-- The pre-flight check changes nothing but the log, where it records its calls. -/
theorem preflight_frame (ext : Ext σ) (s : Driver σ) :
    (preflight ext s).1.dt = s.dt ∧ (preflight ext s).1.idid = s.idid
      ∧ (∀ q, (preflight ext s).1.ode q = s.ode q)
      ∧ advanceDts (preflight ext s).1.log = advanceDts s.log := by
  unfold preflight
  dsimp only
  split
  · split
    · split
      · simp [check, advanceDts, Event.advanceDt]
      · simp [check, advanceDts, Event.advanceDt]
    · simp [check, advanceDts, Event.advanceDt]
  · simp [check, advanceDts, Event.advanceDt]

/-- The pre-loop part of `main` when `advance` leaves the step size alone: the three
gate calls get half the step size, which is then restored. -/
theorem preLoop_dts (ext : Ext σ) (hD : ∀ r q s, (ext.advance r q s).dt = s.dt) (mesh : Mesh)
    (s : Driver σ) :
    (preLoop ext mesh s).dt = s.dt
      ∧ advanceDts (preLoop ext mesh s).log = advanceDts s.log ++ [s.dt / 2, s.dt / 2, s.dt / 2] := by
  simp [preLoop, hD, advanceDts, Event.advanceDt]

/-- One iteration of the time loop when `advance` leaves the step size alone. -/
theorem loopBody_dts (ext : Ext σ) (hD : ∀ r q s, (ext.advance r q s).dt = s.dt) (mesh : Mesh)
    (s : Driver σ) :
    (loopBody ext mesh s).dt = s.dt
      ∧ advanceDts (loopBody ext mesh s).log = advanceDts s.log ++ [s.dt, s.dt, s.dt, s.dt] := by
  simp [loopBody, hD, advanceDts, Event.advanceDt]

/-- Any number of iterations of the time loop when `advance` leaves the step size alone. -/
theorem iterate_dts (ext : Ext σ) (hD : ∀ r q s, (ext.advance r q s).dt = s.dt) (mesh : Mesh)
    (k : Nat) (s : Driver σ) :
    ((loopBody ext mesh)^[k] s).dt = s.dt
      ∧ advanceDts ((loopBody ext mesh)^[k] s).log
          = advanceDts s.log ++ List.replicate (4 * k) s.dt := by
  induction k with
  | zero => simp
  | succ k ih =>
    rw [Function.iterate_succ_apply']
    obtain ⟨h1, h2⟩ := loopBody_dts ext hD mesh ((loopBody ext mesh)^[k] s)
    rw [h1, h2, ih.1, ih.2]
    refine ⟨rfl, ?_⟩
    have e : 4 * (k + 1) = 4 * k + 4 := by ring
    rw [e, List.replicate_add, List.append_assoc]
    rfl

/-- The times after one iteration of the time loop, when every `advance` call adds the
step size it is given to the time of its subsystem and leaves `dt` and `idid` alone. -/
theorem loopBody_times (ext : Ext σ)
    (hT : ∀ r q s, (ext.advance r q s).ode.time = (s.ode q).time + s.dt)
    (hD : ∀ r q s, (ext.advance r q s).dt = s.dt)
    (hI : ∀ r q s, (ext.advance r q s).idid = s.idid) (mesh : Mesh) (s : Driver σ) :
    (loopBody ext mesh s).idid = s.idid
      ∧ ∀ q, ((loopBody ext mesh s).ode q).time = (s.ode q).time + s.dt := by
  refine ⟨by simp [loopBody, hI], ?_⟩
  intro q
  cases q <;> simp [loopBody, callAdvance_ode, hT, hD]

/-- The times after the pre-loop part of `main`, under the same assumption. -/
theorem preLoop_times (ext : Ext σ)
    (hT : ∀ r q s, (ext.advance r q s).ode.time = (s.ode q).time + s.dt)
    (hD : ∀ r q s, (ext.advance r q s).dt = s.dt) (mesh : Mesh) (s : Driver σ) :
    (preLoop ext mesh s).idid = 2
      ∧ ((preLoop ext mesh s).ode .cable).time = (s.ode .cable).time
      ∧ ∀ q, q ≠ .cable → ((preLoop ext mesh s).ode q).time = (s.ode q).time + s.dt / 2 := by
  refine ⟨rfl, ?_, ?_⟩
  · simp [preLoop, Driver.ode, callAdvance, Driver.setOde, Driver.setRock, Driver.emit,
      monitorLine]
  · intro q hq
    cases q
    · exact absurd rfl hq
    · simp [preLoop, Driver.ode, callAdvance, Driver.setOde, Driver.setRock, Driver.emit,
        monitorLine, hT, hD]
    · simp [preLoop, Driver.ode, callAdvance, Driver.setOde, Driver.setRock, Driver.emit,
        monitorLine, hT, hD]
    · simp [preLoop, Driver.ode, callAdvance, Driver.setOde, Driver.setRock, Driver.emit,
        monitorLine, hT, hD]

/-- A count that fits `std::size_t` is converted unchanged. -/
theorem toSizeT_eq (x : Int) (h0 : 0 ≤ x) (h1 : x < 2 ^ 64) : toSizeT x = x.toNat := by
  rw [toSizeT, Int.emod_eq_of_lt h0 h1]

/-- The index pairs of subsystem `q` read by the rows of the indices `l`. -/
theorem rows_indexPair (b : Branch) (q : Sub) (l : List Nat) :
    (l.flatMap (row b)).filterMap (Event.indexPair q) = l.map (fun i => (i, i)) := by
  induction l with
  | nil => rfl
  | cons i l ih =>
    rw [List.flatMap_cons, List.filterMap_append, ih]
    cases q <;> simp [row, Event.indexPair]

/-- The `fclose` calls read nothing. -/
theorem closeBranch_indexPair (b : Branch) (q : Sub) :
    (closeBranch b).filterMap (Event.indexPair q) = [] := rfl

/-- The lines written to the file of branch `b'` and subsystem `q` by the rows of
branch `b` for the indices `l`. -/
theorem rows_isFprintfTo (b b' : Branch) (q : Sub) (l : List Nat) :
    (l.flatMap (row b)).filter (Event.isFprintfTo (.branch b' q))
      = if b = b' then l.map (fun i => Event.fprintf (.branch b q) i q i) else [] := by
  induction l with
  | nil => simp
  | cons i l ih =>
    rw [List.flatMap_cons, List.filter_append, ih]
    cases b <;> cases b' <;> cases q <;> simp [row, Event.isFprintfTo]

/-- The `fclose` calls write nothing. -/
theorem closeBranch_isFprintfTo (b : Branch) (f : File) :
    (closeBranch b).filter (Event.isFprintfTo f) = [] := rfl

/-- Every line of the rows of branch `b` for the indices `l` reads `mesh.grid` and the
vector of its own subsystem at one and the same index of `l`, and goes to the file of
branch `b` and that subsystem. -/
theorem rows_mem (b : Branch) (l : List Nat) (f : File) (i : Nat) (q : Sub) (j : Nat)
    (h : Event.fprintf f i q j ∈ l.flatMap (row b)) :
    i = j ∧ j ∈ l ∧ f = .branch b q := by
  rw [List.mem_flatMap] at h
  obtain ⟨x, hx, hmem⟩ := h
  simp only [row, List.mem_cons, List.mem_singleton, List.not_mem_nil, or_false,
    Event.fprintf.injEq] at hmem
  rcases hmem with ⟨rfl, rfl, rfl, rfl⟩ | ⟨rfl, rfl, rfl, rfl⟩ | ⟨rfl, rfl, rfl, rfl⟩
    | ⟨rfl, rfl, rfl, rfl⟩ <;> exact ⟨rfl, hx, rfl⟩

end Steps

/-! ## The condition of the time loop -/

/-- C4. Every iteration of the time loop makes exactly four `advance` calls, in the
order cable, gate n, gate m, gate h, each on its own integrator instance and its own
ODE object, whatever the state, the status and the behaviour of `advance`; so the
calls of the whole loop are that sequence of four, repeated once per iteration. -/
theorem loop_iteration_advances_in_lockstep {σ : Type} (ext : Ext σ) (tend : ℚ) (mesh : Mesh)
    (s : Driver σ) :
    advancePairs (loopBody ext mesh s).log
        = advancePairs s.log ++
          [(.rock_cable, .cable), (.rock_gate_n, .gate_n), (.rock_gate_m, .gate_m),
           (.rock_gate_h, .gate_h)]
    ∧ (∀ k, advancePairs ((loopBody ext mesh)^[k] s).log
        = advancePairs s.log ++ (List.replicate k lockstep).flatten)
    ∧ (∀ fuel, ∃ k, k ≤ fuel ∧ timeLoop ext tend mesh fuel s = (loopBody ext mesh)^[k] s
        ∧ advancePairs (timeLoop ext tend mesh fuel s).log
          = advancePairs s.log ++ (List.replicate k lockstep).flatten) := by
  refine ⟨loopBody_advancePairs ext mesh s, fun k => iterate_advancePairs ext mesh k s, ?_⟩
  intro fuel
  obtain ⟨k, hk, e⟩ := timeLoop_eq_iterate ext tend mesh fuel s
  exact ⟨k, hk, e, by rw [e, iterate_advancePairs]⟩

/-! ## Reaction of the driver to the status -/

/-- C6, as stated, fails: in the run where every `advance` takes one step, the first
iteration of the time loop consists of the four `advance` calls and the monitor line
only, and after three iterations the log still holds just the four calls of the
initialisation. -/
theorem loop_iteration_hands_over_no_state :
    (loopBody stepExt (stepExt.mkMesh dx)
        (preLoop stepExt (stepExt.mkMesh dx) (setup stepExt defaults).1)).log.drop
        (preLoop stepExt (stepExt.mkMesh dx) (setup stepExt defaults).1).log.length
      = [.advance .rock_cable .cable (1 / 2000) 2, .fprintf_monitor (1 / 2000) 1,
         .advance .rock_gate_n .gate_n (1 / 2000) 2, .advance .rock_gate_m .gate_m (1 / 2000) 2,
         .advance .rock_gate_h .gate_h (1 / 2000) 2]
    ∧ advancePairs (main stepExt 3 1 ["./main"]).log
        = [(.rock_gate_n, .gate_n), (.rock_gate_m, .gate_m), (.rock_gate_h, .gate_h)]
          ++ (List.replicate 3 lockstep).flatten
    ∧ refreshCalls (main stepExt 3 1 ["./main"]).log
        = [.get_potential .gate_n, .get_potential .gate_m, .get_potential .gate_h,
           .get_gate_state] := by
  decide!

/-- C6, amended. The driver hands each subsystem the state of the others exactly once,
during the initialisation and before any stepping: `get_potential` once for each gate
and then `get_gate_state` once for the cable. No iteration of the time loop and no
other part of `main` calls them again, whatever the number of iterations. -/
theorem state_references_handed_over_once {σ : Type} (ext : Ext σ) (fuel argc : Nat)
    (argv : List String) (p : Params) (hp : parseArgs ext argc argv = some p) :
    refreshCalls (main ext fuel argc argv).log
        = [.get_potential .gate_n, .get_potential .gate_m, .get_potential .gate_h,
           .get_gate_state]
    ∧ ∀ mesh s, refreshCalls (loopBody ext mesh s).log = refreshCalls s.log := by
  constructor
  · rw [main_of_parseArgs ext fuel argc argv p hp]
    obtain ⟨l, e, hl⟩ := run_log ext fuel p.tend (setup ext p).2 (setup ext p).1
    have hnil := refreshCalls_eq_nil l hl
    rw [refreshCalls] at hnil
    rw [e, refreshCalls, List.filter_append, hnil, List.append_nil]
    rfl
  · intro mesh s
    obtain ⟨l, e, hl⟩ := continues_loopBody ext mesh s
    have hnil := refreshCalls_eq_nil l hl
    rw [refreshCalls] at hnil
    rw [e, refreshCalls, List.filter_append, hnil, List.append_nil]
    rfl

/-- C6, amended, at a concrete run of three iterations. -/
theorem state_references_handed_over_once_witness :
    refreshCalls (main stepExt 3 1 ["./main"]).log
        = [.get_potential .gate_n, .get_potential .gate_m, .get_potential .gate_h,
           .get_gate_state]
    ∧ ∀ mesh s, refreshCalls (loopBody stepExt mesh s).log = refreshCalls s.log :=
  state_references_handed_over_once stepExt 3 1 ["./main"] defaults rfl

/-! ## The run parameters -/

/-- C7, at the failing input: two command lines that differ only in the mesh-resolution
argument `argv[1]` give the same run, event for event; the mesh is built from the
fixed grid space `dx = 0.01` whatever `n_ref` is. -/
theorem mesh_ignores_n_ref {σ : Type} (ext : Ext σ) (fuel : Nat) (arg1 arg1' : String)
    (p : Params) (n : Int) :
    main ext fuel 5 ["./main", arg1, "0.0005", "0", "1"]
        = main ext fuel 5 ["./main", arg1', "0.0005", "0", "1"]
    ∧ (setup ext { p with n_ref := n }).2 = ext.mkMesh (1 / 100)
    ∧ (setup ext { p with n_ref := n }).1.log.head? = some (.mesh_ctor (1 / 100)) := by
  refine ⟨rfl, ?_, ?_⟩
  · simp only [setup, dx]
    norm_num
  · simp only [setup, dx, List.head?_cons]
    norm_num

/-- C9, at the failing input: with one argument supplied (`argc = 2`) the parsing
block reads `argv[2]`, which is not a supplied argument, and the run leaves the
defined behaviour. -/
theorem parseArgs_reads_past_argc {σ : Type} (ext : Ext σ) (fuel : Nat) :
    argvRead 2 ["./main", "4"] 1 = some "4"
    ∧ argvRead 2 ["./main", "4"] 2 = none
    ∧ parseArgs ext 2 ["./main", "4"] = none
    ∧ main ext fuel 2 ["./main", "4"] = .undefined := by
  refine ⟨rfl, rfl, rfl, rfl⟩

/-! ## The step size handed to `advance` -/

/-- C5, as stated, fails: the stepping `advance` never modifies the step size, the run
starts with `dt = 0.0005`, and the three pre-loop gate calls are handed `0.00025`. -/
theorem pre_loop_calls_get_half_step :
    (∀ r q s, (stepExt.advance r q s).dt = s.dt)
    ∧ defaults.dt = 1 / 2000
    ∧ advanceDts (main stepExt 1 1 ["./main"]).log
        = [1 / 4000, 1 / 4000, 1 / 4000, 1 / 2000, 1 / 2000, 1 / 2000, 1 / 2000] := by
  refine ⟨fun _ _ _ => rfl, by decide!, by decide!⟩

/-- C5, amended. With adaptivity disabled (`advance` never modifies the step size it
is given), every `advance` call inside the time loop, on every subsystem, is given the
initial step size `dt` of the run, and the three gate calls before the loop are given
`dt/2`: the step sizes handed out by a run that passes the pre-flight check are three
times `dt/2` followed by `dt` four times per iteration. -/
theorem loop_calls_get_initial_step {σ : Type} (ext : Ext σ)
    (hD : ∀ r q s, (ext.advance r q s).dt = s.dt) (fuel argc : Nat) (argv : List String)
    (p : Params) (hp : parseArgs ext argc argv = some p)
    (hgo : (preflight ext (setup ext p).1).2 = false) :
    ∃ k, k ≤ fuel ∧ advanceDts (main ext fuel argc argv).log
      = [p.dt / 2, p.dt / 2, p.dt / 2] ++ List.replicate (4 * k) p.dt := by
  obtain ⟨k, hk, e⟩ := timeLoop_eq_iterate ext p.tend (setup ext p).2 fuel
    (preLoop ext (setup ext p).2 (preflight ext (setup ext p).1).1)
  obtain ⟨f1, -, -, f4⟩ := preflight_frame ext (setup ext p).1
  obtain ⟨p1, p2⟩ := preLoop_dts ext hD (setup ext p).2 (preflight ext (setup ext p).1).1
  obtain ⟨i1, i2⟩ := iterate_dts ext hD (setup ext p).2 k
    (preLoop ext (setup ext p).2 (preflight ext (setup ext p).1).1)
  have hs : (setup ext p).1.dt = p.dt := rfl
  have hl : advanceDts (setup ext p).1.log = [] := rfl
  have key : advanceDts (timeLoop ext p.tend (setup ext p).2 fuel
      (preLoop ext (setup ext p).2 (preflight ext (setup ext p).1).1)).log
      = [p.dt / 2, p.dt / 2, p.dt / 2] ++ List.replicate (4 * k) p.dt := by
    rw [e, i2, p1, p2, f1, f4, hs, hl, List.nil_append]
  refine ⟨k, hk, ?_⟩
  rw [main_of_parseArgs ext fuel argc argv p hp, run_of_not_abort ext fuel p.tend _ _ hgo]
  split
  · exact key
  · have ho := outputEvents_advanceDts (setup ext p).2
    rw [advanceDts] at ho
    simp only [Outcome.log, finish_log, advanceDts, List.filterMap_append, ho, List.append_nil]
    exact key

/-- C5, amended, at a concrete run with adaptivity disabled. -/
theorem loop_calls_get_initial_step_witness :
    ∃ k, k ≤ 2 ∧ advanceDts (main stepExt 2 1 ["./main"]).log
      = [defaults.dt / 2, defaults.dt / 2, defaults.dt / 2] ++ List.replicate (4 * k) defaults.dt :=
  loop_calls_get_initial_step stepExt (fun _ _ _ => rfl) 2 1 ["./main"] defaults rfl (by decide)

/-! ## The staggered times of the subsystems -/

/-- C8. Assume the four subsystems start at the same time `t0` and every `advance`
call adds exactly the step size it is given to the time of its subsystem, leaving the
step size and the status unchanged. Then after the pre-loop calls and `k` complete
iterations of the time loop the step size is the initial `dt`, the status is 2, the
cable time is `t0 + k*dt` and each gate time is `t0 + k*dt + dt/2`; the calls inside
the loop were all given `dt`; and the cut-off time loop always stands at such a state. -/
theorem gates_lead_cable_by_half_step {σ : Type} (ext : Ext σ) (mesh : Mesh) (s0 : Driver σ)
    (t0 : ℚ)
    (hT : ∀ r q s, (ext.advance r q s).ode.time = (s.ode q).time + s.dt)
    (hD : ∀ r q s, (ext.advance r q s).dt = s.dt)
    (hI : ∀ r q s, (ext.advance r q s).idid = s.idid)
    (hc : s0.cable.time = t0) (hn : s0.gate_n.time = t0) (hm : s0.gate_m.time = t0)
    (hh : s0.gate_h.time = t0) (k : Nat) :
    ((loopBody ext mesh)^[k] (preLoop ext mesh s0)).dt = s0.dt
    ∧ ((loopBody ext mesh)^[k] (preLoop ext mesh s0)).idid = 2
    ∧ ((loopBody ext mesh)^[k] (preLoop ext mesh s0)).cable.time = t0 + k * s0.dt
    ∧ ((loopBody ext mesh)^[k] (preLoop ext mesh s0)).gate_n.time = t0 + k * s0.dt + s0.dt / 2
    ∧ ((loopBody ext mesh)^[k] (preLoop ext mesh s0)).gate_m.time = t0 + k * s0.dt + s0.dt / 2
    ∧ ((loopBody ext mesh)^[k] (preLoop ext mesh s0)).gate_h.time = t0 + k * s0.dt + s0.dt / 2
    ∧ advanceDts ((loopBody ext mesh)^[k] (preLoop ext mesh s0)).log
        = advanceDts s0.log ++ [s0.dt / 2, s0.dt / 2, s0.dt / 2] ++ List.replicate (4 * k) s0.dt
    ∧ ∀ tend fuel, ∃ j, j ≤ fuel ∧ timeLoop ext tend mesh fuel (preLoop ext mesh s0)
        = (loopBody ext mesh)^[j] (preLoop ext mesh s0) := by
  obtain ⟨p1, p2⟩ := preLoop_dts ext hD mesh s0
  obtain ⟨i1, i2⟩ := iterate_dts ext hD mesh k (preLoop ext mesh s0)
  obtain ⟨q1, q2, q3⟩ := preLoop_times ext hT hD mesh s0
  have inv : ∀ j : Nat, ((loopBody ext mesh)^[j] (preLoop ext mesh s0)).idid = 2
      ∧ ∀ q, (((loopBody ext mesh)^[j] (preLoop ext mesh s0)).ode q).time
          = ((preLoop ext mesh s0).ode q).time + j * s0.dt := by
    intro j
    induction j with
    | zero => exact ⟨q1, fun q => by simp⟩
    | succ j ih =>
      rw [Function.iterate_succ_apply']
      obtain ⟨b1, b2⟩ := loopBody_times ext hT hD hI mesh
        ((loopBody ext mesh)^[j] (preLoop ext mesh s0))
      refine ⟨by rw [b1]; exact ih.1, fun q => ?_⟩
      rw [b2 q, ih.2 q, (iterate_dts ext hD mesh j (preLoop ext mesh s0)).1, p1]
      push_cast
      ring
  obtain ⟨v1, v2⟩ := inv k
  have ec := v2 .cable
  have en := v2 .gate_n
  have em := v2 .gate_m
  have eh := v2 .gate_h
  rw [q3 .gate_n (by decide)] at en
  rw [q3 .gate_m (by decide)] at em
  rw [q3 .gate_h (by decide)] at eh
  rw [q2] at ec
  simp only [Driver.ode] at ec en em eh
  rw [hc] at ec
  rw [hn] at en
  rw [hm] at em
  rw [hh] at eh
  refine ⟨by rw [i1, p1], v1, ec, ?_, ?_, ?_, by rw [i2, p1, p2],
    fun tend fuel => timeLoop_eq_iterate ext tend mesh fuel _⟩
  · rw [en]; ring
  · rw [em]; ring
  · rw [eh]; ring

/-- C8, at a concrete run: every `advance` takes one step of the size it is given,
all subsystems start at time 0, three iterations. -/
theorem gates_lead_cable_by_half_step_witness :
    ((loopBody stepExt (stepExt.mkMesh dx))^[3]
        (preLoop stepExt (stepExt.mkMesh dx) (setup stepExt defaults).1)).cable.time
      = 0 + (3 : Nat) * (setup stepExt defaults).1.dt
    ∧ ((loopBody stepExt (stepExt.mkMesh dx))^[3]
        (preLoop stepExt (stepExt.mkMesh dx) (setup stepExt defaults).1)).gate_n.time
      = 0 + (3 : Nat) * (setup stepExt defaults).1.dt + (setup stepExt defaults).1.dt / 2 :=
  have h := gates_lead_cable_by_half_step stepExt (stepExt.mkMesh dx) (setup stepExt defaults).1 0
    (fun _ _ _ => rfl) (fun _ _ _ => rfl) (fun _ _ _ => rfl) rfl rfl rfl rfl 3
  ⟨h.2.2.1, h.2.2.2.1⟩

/-! ## The final output loops -/

/-- C10. For a mesh with `n_L1 >= 1` and `n_L1 - 1 <= n_L1 + n_L2 - 2 <= n_elem` (the
counts fitting `std::size_t`), the three output loops partition the mesh indices: for
each of the four subsystems the indices read are `0, 1, ..., n_elem - 1`, each exactly
once, with the same index for `mesh.grid` and for the vector; every line reads an index
below `n_elem` and goes to the file of the branch of its index (A iff `i < n_L1 - 1`,
B iff `n_L1 - 1 <= i < n_L1 + n_L2 - 2`, C iff `n_L1 + n_L2 - 2 <= i`); and each branch
file receives exactly the indices of its branch, in increasing order. -/
theorem output_loops_partition_mesh (mesh : Mesh) (h1 : 1 ≤ mesh.n_L1)
    (h2 : mesh.n_L1 - 1 ≤ mesh.n_L1 + mesh.n_L2 - 2)
    (h3 : mesh.n_L1 + mesh.n_L2 - 2 ≤ mesh.n_elem) (h4 : mesh.n_elem < 2 ^ 64) :
    (∀ q, (outputLoops mesh).filterMap (Event.indexPair q)
        = (List.range mesh.n_elem.toNat).map (fun i => (i, i)))
    ∧ (∀ f i q j, Event.fprintf f i q j ∈ outputLoops mesh →
        i = j ∧ (j : Int) < mesh.n_elem ∧ f = .branch (branchOf mesh j) q)
    ∧ (∀ b q, (outputLoops mesh).filter (Event.isFprintfTo (.branch b q))
        = (List.range' (branchRange mesh b).1 ((branchRange mesh b).2 - (branchRange mesh b).1)).map
            (fun i => Event.fprintf (.branch b q) i q i))
    ∧ (outputLoops mesh).filter (Event.isFprintfTo .monitor) = [] := by
  have ea : toSizeT (mesh.n_L1 - 1) = (mesh.n_L1 - 1).toNat :=
    toSizeT_eq _ (by omega) (by omega)
  have eb : toSizeT (mesh.n_L1 + mesh.n_L2 - 2) = (mesh.n_L1 + mesh.n_L2 - 2).toNat :=
    toSizeT_eq _ (by omega) (by omega)
  have en : toSizeT mesh.n_elem = mesh.n_elem.toNat := toSizeT_eq _ (by omega) h4
  have hab : (mesh.n_L1 - 1).toNat ≤ (mesh.n_L1 + mesh.n_L2 - 2).toNat := by omega
  have hbn : (mesh.n_L1 + mesh.n_L2 - 2).toNat ≤ mesh.n_elem.toNat := by omega
  have hA : ((mesh.n_L1 - 1).toNat : Int) = mesh.n_L1 - 1 := Int.toNat_of_nonneg (by omega)
  have hB : ((mesh.n_L1 + mesh.n_L2 - 2).toNat : Int) = mesh.n_L1 + mesh.n_L2 - 2 :=
    Int.toNat_of_nonneg (by omega)
  have hN : (mesh.n_elem.toNat : Int) = mesh.n_elem := Int.toNat_of_nonneg (by omega)
  have hloops : outputLoops mesh
      = (List.range' 0 (mesh.n_L1 - 1).toNat).flatMap (row .A) ++ closeBranch .A
        ++ (List.range' (mesh.n_L1 - 1).toNat
            ((mesh.n_L1 + mesh.n_L2 - 2).toNat - (mesh.n_L1 - 1).toNat)).flatMap (row .B)
        ++ closeBranch .B
        ++ (List.range' (mesh.n_L1 + mesh.n_L2 - 2).toNat
            (mesh.n_elem.toNat - (mesh.n_L1 + mesh.n_L2 - 2).toNat)).flatMap (row .C)
        ++ closeBranch .C := by
    simp only [outputLoops, ea, eb, en, forLoop_eq_flatMap, Nat.sub_zero]
  refine ⟨?_, ?_, ?_, ?_⟩
  · intro q
    rw [hloops]
    simp only [List.filterMap_append, rows_indexPair, closeBranch_indexPair, List.append_nil,
      ← List.map_append]
    congr 1
    rw [List.range_eq_range']
    have e1 : List.range' 0 (mesh.n_L1 - 1).toNat
        ++ List.range' (mesh.n_L1 - 1).toNat
            ((mesh.n_L1 + mesh.n_L2 - 2).toNat - (mesh.n_L1 - 1).toNat)
        = List.range' 0 (mesh.n_L1 + mesh.n_L2 - 2).toNat := by
      have := List.range'_append_1 0 (mesh.n_L1 - 1).toNat
        ((mesh.n_L1 + mesh.n_L2 - 2).toNat - (mesh.n_L1 - 1).toNat)
      rw [Nat.zero_add, Nat.sub_add_cancel hab] at this
      exact this
    have e2 : List.range' 0 (mesh.n_L1 + mesh.n_L2 - 2).toNat
        ++ List.range' (mesh.n_L1 + mesh.n_L2 - 2).toNat
            (mesh.n_elem.toNat - (mesh.n_L1 + mesh.n_L2 - 2).toNat)
        = List.range' 0 mesh.n_elem.toNat := by
      have := List.range'_append_1 0 (mesh.n_L1 + mesh.n_L2 - 2).toNat
        (mesh.n_elem.toNat - (mesh.n_L1 + mesh.n_L2 - 2).toNat)
      rw [Nat.zero_add, Nat.sub_add_cancel hbn] at this
      exact this
    rw [e1, e2]
  · intro f i q j hmem
    rw [hloops] at hmem
    simp only [List.mem_append] at hmem
    rcases hmem with ((((hmem | hmem) | hmem) | hmem) | hmem) | hmem
    · obtain ⟨hij, hj, hf⟩ := rows_mem .A _ f i q j hmem
      rw [List.mem_range'_1] at hj
      have hb : branchOf mesh j = .A := by
        unfold branchOf
        rw [if_pos (by omega)]
      exact ⟨hij, by omega, by rw [hb]; exact hf⟩
    · simp [closeBranch] at hmem
    · obtain ⟨hij, hj, hf⟩ := rows_mem .B _ f i q j hmem
      rw [List.mem_range'_1] at hj
      have hb : branchOf mesh j = .B := by
        unfold branchOf
        rw [if_neg (by omega), if_pos (by omega)]
      exact ⟨hij, by omega, by rw [hb]; exact hf⟩
    · simp [closeBranch] at hmem
    · obtain ⟨hij, hj, hf⟩ := rows_mem .C _ f i q j hmem
      rw [List.mem_range'_1] at hj
      have hb : branchOf mesh j = .C := by
        unfold branchOf
        rw [if_neg (by omega), if_neg (by omega)]
      exact ⟨hij, by omega, by rw [hb]; exact hf⟩
    · simp [closeBranch] at hmem
  · intro b q
    rw [hloops]
    simp only [List.filter_append, rows_isFprintfTo, closeBranch_isFprintfTo, List.append_nil]
    cases b <;> simp [branchRange]
  · rw [hloops]
    simp only [List.filter_append, closeBranch_isFprintfTo, List.append_nil]
    have none_to_monitor : ∀ (b : Branch) (l : List Nat),
        (l.flatMap (row b)).filter (Event.isFprintfTo .monitor) = [] := by
      intro b l
      rw [List.filter_eq_nil_iff]
      intro e he
      rw [List.mem_flatMap] at he
      obtain ⟨x, -, hx⟩ := he
      simp only [row, List.mem_cons, List.mem_singleton, List.not_mem_nil, or_false] at hx
      rcases hx with rfl | rfl | rfl | rfl <;> simp [Event.isFprintfTo]
    simp only [none_to_monitor, List.append_nil]

/-- C10, at a concrete mesh: six points, `n_L1 = n_L2 = 3`, so that branch A holds the
indices 0, 1, branch B the indices 2, 3 and branch C the indices 4, 5. -/
theorem output_loops_partition_mesh_witness :
    (∀ q, (outputLoops (stepExt.mkMesh dx)).filterMap (Event.indexPair q)
        = (List.range (stepExt.mkMesh dx).n_elem.toNat).map (fun i => (i, i)))
    ∧ (outputLoops (stepExt.mkMesh dx)).filter (Event.isFprintfTo (.branch .B .gate_m))
        = [.fprintf (.branch .B .gate_m) 2 .gate_m 2, .fprintf (.branch .B .gate_m) 3 .gate_m 3] :=
  have h := output_loops_partition_mesh (stepExt.mkMesh dx) (by decide) (by decide) (by decide)
    (by decide)
  ⟨h.1, (h.2.2.1 .B .gate_m).trans (by decide)⟩

end Neuron
